import Mathlib

/-!
Verification development for the client-side caching layer of the
habit-tracker web application.

The definitions below are a shallow embedding of the code in
`src/lib/cacheService.ts`, `src/lib/cacheManager.ts` and the
authentication provider's `logout` handler.  Cached values are opaque to
the cache (the TypeScript code stores them as `unknown`), so they are
modelled by the stand-in type `Val := Int`.  Times (`Date.now()`,
timestamps, TTLs) are epoch milliseconds modelled as `Int`; each
operation that reads the clock takes the current time `now` as an
explicit argument.  JavaScript `Map`s are modelled as insertion-ordered
association lists (`Map.set` replaces in place, `keys().next().value`
is the first inserted key), and `localStorage` as an association list
from string keys to stored records.
-/

namespace HabitTracker

/-- Values stored in the cache are opaque (`unknown` in the source); we use an
integer stand-in. -/
abbrev Val := Int

-- ======== String helpers (JS `String.prototype` semantics) ========

/-- Boolean test that `p` is a prefix of `l` (character lists). -/
def isPrefOf : List Char → List Char → Bool
  | [], _ => true
  | _ :: _, [] => false
  | a :: as, b :: bs => a == b && isPrefOf as bs

/-- Boolean test that the pattern `p` occurs as a contiguous sublist of `t`. -/
def hasSubList (p : List Char) : List Char → Bool
  | [] => isPrefOf p []
  | t@(_ :: ts) => isPrefOf p t || hasSubList p ts

/-- Embedding of JavaScript `s.startsWith(pat)`. -/
def strStarts (s pat : String) : Bool := isPrefOf pat.data s.data

/-- Embedding of JavaScript `s.includes(pat)`. -/
def hasSubStr (s pat : String) : Bool := hasSubList pat.data s.data

-- ======== Association-list maps (JS `Map` semantics) ========

/-- Lookup of the binding of key `k` (JS `Map.get`). -/
def mapLookup : List (String × β) → String → Option β
  | [], _ => none
  | p :: t, k => if p.1 = k then some p.2 else mapLookup t k

/-- Membership of key `k` (JS `Map.has`). -/
def mapHas (l : List (String × β)) (k : String) : Bool :=
  (mapLookup l k).isSome

/-- Insertion (JS `Map.set`): replaces an existing binding in place,
otherwise appends, preserving insertion order. -/
def mapSet : List (String × β) → String → β → List (String × β)
  | [], k, v => [(k, v)]
  | p :: t, k, v => if p.1 = k then (k, v) :: t else p :: mapSet t k v

/-- Deletion (JS `Map.delete` / `localStorage.removeItem`): removes the
binding of `k`. -/
def mapDel (l : List (String × β)) (k : String) : List (String × β) :=
  l.filter (fun p => decide (p.1 ≠ k))

/-- Boolean membership in a list of keys. -/
def keyMem (ks : List String) (k : String) : Bool :=
  ks.any (fun x => x = k)

-- ======== Data model (`cacheService.ts`) ========

/-- Embedding of `CacheEntry<T>`: `{ data, timestamp, ttl, tags }`. -/
structure CacheEntry where
  data : Val
  timestamp : Int
  ttl : Int
  tags : List String
deriving DecidableEq, Repr

/-- Embedding of `CacheOptions` with the default values used by the
destructuring in `getOrFetch` and `set`. -/
structure CacheOptions where
  ttl : Int := 5 * 60 * 1000
  useMemory : Bool := true
  useStorage : Bool := false
  tags : List String := []
  staleWhileRevalidate : Bool := false
deriving DecidableEq, Repr

/-- Embedding of `CacheStats`. -/
structure CacheStats where
  memoryHits : Nat
  memoryMisses : Nat
  storageHits : Nat
  storageMisses : Nat
  totalEntries : Nat
deriving DecidableEq, Repr

/-- A record stored in `localStorage`: either a serialized `CacheEntry`
(`JSON.parse` succeeds) or an unparseable string (`JSON.parse` throws). -/
inductive StoredVal
  | ok (e : CacheEntry)
  | bad
deriving DecidableEq, Repr

/-- Kind of an in-flight fetcher invocation: a `getOrFetch`-initiated fetch
registered in `pendingFetches`, or a detached `backgroundRefresh`. -/
inductive FetchKind
  | foreground
  | background
deriving DecidableEq, Repr

/-- State of the `CacheService` singleton together with the `localStorage`
area it persists into.  The fields `nextFid`, `fetchCount` and `inflight`
are instrumentation: they give each started fetcher invocation an identity
(`nextFid` is the next fresh promise id), count fetcher invocations, and
record which invocations are still unresolved. -/
structure CacheState where
  memoryCache : List (String × CacheEntry)
  storage : List (String × StoredVal)
  stats : CacheStats
  pendingFetches : List (String × Nat)
  nextFid : Nat
  fetchCount : Nat
  inflight : List (Nat × String × FetchKind)
deriving DecidableEq, Repr

/-- The empty cache: a freshly constructed `CacheService` over empty
`localStorage`. -/
def initState : CacheState :=
  { memoryCache := []
    storage := []
    stats := ⟨0, 0, 0, 0, 0⟩
    pendingFetches := []
    nextFid := 0
    fetchCount := 0
    inflight := [] }

-- ======== Constants ========

/-- The `CACHE_PREFIX` constant of `cacheService.ts` (`'ht-cache'`). -/
def htCacheNS : String := "ht-cache"

/-- The storage namespace followed by the separating colon, as produced by
`getStorageKey`. -/
def nsColon : String := htCacheNS ++ ":"

/-- The `CACHE_PREFIX` constant of `cacheManager.ts` (`'habit-tracker'`) —
note that it differs from the cache service's namespace. -/
def managerNS : String := "habit-tracker"

/-- Embedding of `MAX_MEMORY_ENTRIES`. -/
def MAX_MEMORY_ENTRIES : Nat := 100

/-- Embedding of `getStorageKey`. -/
def storKey (key : String) : String := htCacheNS ++ ":" ++ key

/-- Embedding of `isValid`: `Date.now() - entry.timestamp < entry.ttl`. -/
def entryValid (now : Int) (e : CacheEntry) : Bool :=
  now - e.timestamp < e.ttl

/-- Embedding of `isStale`: `age > entry.ttl * 0.8`, written over the
integers as `5 * age > 4 * ttl`. -/
def entryStale (now : Int) (e : CacheEntry) : Bool :=
  5 * (now - e.timestamp) > 4 * e.ttl

-- ======== Core methods of `CacheService` ========

/-- Storage-tier half of `get` (the `localStorage` block), entered after a
memory miss on the state `s` in which the memory tier has already been
updated.  Matches the source: a valid persisted entry is promoted into the
memory tier with no capacity check; an expired or unparseable record is
removed; every non-returning path increments `storageMisses`. -/
def getStorage (s : CacheState) (now : Int) (key : String) :
    CacheState × Option Val :=
  let sk := storKey key
  match mapLookup s.storage sk with
  | some (.ok e) =>
    if entryValid now e then
      ({ s with memoryCache := mapSet s.memoryCache key e
                stats := { s.stats with storageHits := s.stats.storageHits + 1 } },
       some e.data)
    else
      ({ s with storage := mapDel s.storage sk
                stats := { s.stats with storageMisses := s.stats.storageMisses + 1 } },
       none)
  | some .bad =>
      ({ s with storage := mapDel s.storage sk
                stats := { s.stats with storageMisses := s.stats.storageMisses + 1 } },
       none)
  | none =>
      ({ s with stats := { s.stats with storageMisses := s.stats.storageMisses + 1 } },
       none)

/-- Embedding of `get`: memory tier first (expired entries are deleted),
then the persistent tier via `getStorage`. -/
def getOp (s : CacheState) (now : Int) (key : String) :
    CacheState × Option Val :=
  match mapLookup s.memoryCache key with
  | some e =>
    if entryValid now e then
      ({ s with stats := { s.stats with memoryHits := s.stats.memoryHits + 1 } },
       some e.data)
    else
      getStorage
        { s with memoryCache := mapDel s.memoryCache key
                 stats := { s.stats with memoryMisses := s.stats.memoryMisses + 1 } }
        now key
  | none =>
      getStorage
        { s with stats := { s.stats with memoryMisses := s.stats.memoryMisses + 1 } }
        now key

/-- The value returned by `get` (its observable result). -/
def getValue (s : CacheState) (now : Int) (key : String) : Option Val :=
  (getOp s now key).2

/-- Embedding of `evictOldest`: deletes the first-inserted key.  In the
source, `keys().next().value` on an empty map is `undefined` and the empty
string is falsy, so in both of those cases nothing is deleted. -/
def evictOldest : List (String × CacheEntry) → List (String × CacheEntry)
  | [] => []
  | l@(p :: t) => if p.1 = "" then l else t

/-- Embedding of `set`: builds the entry, enforces the memory bound by
evicting once when at capacity, writes the memory tier and updates
`totalEntries`, then persists a copy with the TTL stretched by
`STORAGE_TTL_MULTIPLIER = 2` when `useStorage` is set. -/
def setOp (s : CacheState) (now : Int) (key : String) (data : Val)
    (o : CacheOptions) : CacheState :=
  let entry : CacheEntry := ⟨data, now, o.ttl, o.tags⟩
  let s1 :=
    if o.useMemory then
      let m0 :=
        if MAX_MEMORY_ENTRIES ≤ s.memoryCache.length then
          evictOldest s.memoryCache
        else s.memoryCache
      let m1 := mapSet m0 key entry
      { s with memoryCache := m1
               stats := { s.stats with totalEntries := m1.length } }
    else s
  if o.useStorage then
    { s1 with storage :=
        mapSet s1.storage (storKey key) (.ok { entry with ttl := o.ttl * 2 }) }
  else s1

/-- Embedding of `invalidate(keyOrTag)`.  An argument that is a key of the
memory tier removes that single entry from both tiers.  Otherwise the
memory tier is scanned for entries whose tag list contains the argument or
whose key starts with it; those are deleted from memory together with
their storage mirrors, and finally every remaining `localStorage` key
under the `ht-cache:` namespace containing the argument as a substring is
removed. -/
def invalidateOp (s : CacheState) (keyOrTag : String) : CacheState :=
  if mapHas s.memoryCache keyOrTag then
    { s with memoryCache := mapDel s.memoryCache keyOrTag
             storage := mapDel s.storage (storKey keyOrTag) }
  else
    let keysToRemove :=
      (s.memoryCache.filter
        (fun p => p.2.tags.contains keyOrTag || strStarts p.1 keyOrTag)).map Prod.fst
    let mem1 := keysToRemove.foldl mapDel s.memoryCache
    let st1 := keysToRemove.foldl (fun st k => mapDel st (storKey k)) s.storage
    let storageKeysToRemove :=
      (st1.map Prod.fst).filter
        (fun sk => strStarts sk nsColon && hasSubStr sk keyOrTag)
    let st2 := storageKeysToRemove.foldl mapDel st1
    { s with memoryCache := mem1, storage := st2 }

/-- Embedding of `invalidateByUser(uid)`: collects and deletes every memory
key containing `uid` as a substring, removes every `localStorage` key under
the `ht-cache:` namespace containing `uid`, and refreshes `totalEntries`. -/
def invalidateByUserOp (s : CacheState) (uid : String) : CacheState :=
  let keysToRemove :=
    (s.memoryCache.filter (fun p => hasSubStr p.1 uid)).map Prod.fst
  let mem1 := keysToRemove.foldl mapDel s.memoryCache
  let storageKeysToRemove :=
    (s.storage.map Prod.fst).filter
      (fun sk => strStarts sk nsColon && hasSubStr sk uid)
  let st1 := storageKeysToRemove.foldl mapDel s.storage
  { s with memoryCache := mem1
           storage := st1
           stats := { s.stats with totalEntries := mem1.length } }

/-- Embedding of `clearAll`: empties the memory tier and the pending-fetch
table and removes every `ht-cache:`-namespaced `localStorage` key. -/
def clearAllOp (s : CacheState) : CacheState :=
  { s with memoryCache := []
           pendingFetches := []
           storage := s.storage.filter (fun p => !(strStarts p.1 nsColon))
           stats := { s.stats with totalEntries := 0 } }

-- ======== `getOrFetch` and fetch resolution ========

/-- Result observed by a caller of `getOrFetch` at the moment the call's
synchronous part finishes: the caller attached to an already-pending
promise, got a cache hit, or started a fresh fetch. -/
inductive GFResult
  | attached (fid : Nat)
  | hit (v : Val)
  | started (fid : Nat)
deriving DecidableEq, Repr

/-- Embedding of `backgroundRefresh`: invokes the fetcher detached — the
invocation is recorded as a background in-flight fetch, but nothing is
registered in `pendingFetches`. -/
def startBackgroundFetch (s : CacheState) (key : String) : CacheState :=
  { s with fetchCount := s.fetchCount + 1
           inflight := (s.nextFid, key, FetchKind.background) :: s.inflight
           nextFid := s.nextFid + 1 }

/-- Embedding of the synchronous part of `getOrFetch`: the pending-fetch
check, the `get` call, the stale-while-revalidate trigger on a hit, and on
a miss the fetcher invocation plus registration in `pendingFetches`
(in the source the fetcher is invoked and the promise registered with no
suspension point in between, so the two are one atomic step here). -/
def getOrFetchStep (s : CacheState) (now : Int) (key : String)
    (o : CacheOptions) : CacheState × GFResult :=
  match mapLookup s.pendingFetches key with
  | some fid => (s, .attached fid)
  | none =>
    let res := getOp s now key
    match res.2 with
    | some v =>
      let s1 := res.1
      let s2 :=
        if o.staleWhileRevalidate then
          match mapLookup s1.memoryCache key with
          | some e => if entryStale now e then startBackgroundFetch s1 key else s1
          | none => s1
        else s1
      (s2, .hit v)
    | none =>
      let s1 := res.1
      ({ s1 with
           fetchCount := s1.fetchCount + 1
           inflight := (s1.nextFid, key, FetchKind.foreground) :: s1.inflight
           pendingFetches := mapSet s1.pendingFetches key s1.nextFid
           nextFid := s1.nextFid + 1 },
       .started s1.nextFid)

/-- Resolution of a `getOrFetch`-initiated fetch that succeeded with value
`v`: the `.then` handler stores the result via `set` and clears the
pending-fetch gate. -/
def resolveForegroundOk (s : CacheState) (now : Int) (fid : Nat)
    (key : String) (v : Val) (o : CacheOptions) : CacheState :=
  let s1 := setOp s now key v o
  { s1 with pendingFetches := mapDel s1.pendingFetches key
            inflight := s1.inflight.filter (fun t => decide (t.1 ≠ fid)) }

/-- Resolution of a `getOrFetch`-initiated fetch that rejected: the
`.catch` handler clears the pending-fetch gate and caches nothing (the
error propagates to the caller). -/
def resolveForegroundErr (s : CacheState) (fid : Nat) (key : String) :
    CacheState :=
  { s with pendingFetches := mapDel s.pendingFetches key
           inflight := s.inflight.filter (fun t => decide (t.1 ≠ fid)) }

/-- Resolution of a successful background refresh: writes the result via
`set`. -/
def resolveBackgroundOk (s : CacheState) (now : Int) (fid : Nat)
    (key : String) (v : Val) (o : CacheOptions) : CacheState :=
  let s1 := setOp s now key v o
  { s1 with inflight := s1.inflight.filter (fun t => decide (t.1 ≠ fid)) }

/-- Resolution of a failed background refresh: the error is swallowed
(logged only); no cache state changes. -/
def resolveBackgroundErr (s : CacheState) (fid : Nat) : CacheState :=
  { s with inflight := s.inflight.filter (fun t => decide (t.1 ≠ fid)) }

/-- Iterated calls of `getOrFetch` on the same key with fixed clock and
options, collecting each call's observed result. -/
def gfRepeat : Nat → CacheState → Int → String → CacheOptions →
    CacheState × List GFResult
  | 0, s, _, _, _ => (s, [])
  | n + 1, s, now, key, o =>
    let r := getOrFetchStep s now key o
    let rest := gfRepeat n r.1 now key o
    (rest.1, r.2 :: rest.2)

-- ======== `cacheManager.ts`: corruption detection ========

/-- Scanner for the regular expression `[a-zA-Z0-9]+:` at the head of a
character list: consumes one or more ASCII alphanumerics and then requires
a colon. -/
def consumeAlnumColon : List Char → Bool
  | [] => false
  | c :: cs => if c = ':' then true else (c.isAlpha || c.isDigit) && consumeAlnumColon cs

/-- Head match for `[a-zA-Z0-9]+:` (at least one alphanumeric before the
colon). -/
def alnumThenColon : List Char → Bool
  | [] => false
  | c :: cs => (c.isAlpha || c.isDigit) && consumeAlnumColon cs

/-- Head match for the pattern `habit-tracker:[a-zA-Z0-9]+:`. -/
def uidShapeAt (l : List Char) : Bool :=
  isPrefOf (managerNS ++ ":").data l &&
    alnumThenColon (l.drop (managerNS ++ ":").data.length)

/-- Search of a predicate over all suffixes of a character list. -/
def anySuffix (p : List Char → Bool) : List Char → Bool
  | [] => p []
  | l@(_ :: t) => p l || anySuffix p t

/-- Embedding of `uidPattern.test(key)` for the regular expression
`/habit-tracker:[a-zA-Z0-9]+:/` (an unanchored search). -/
def uidPatternTest (key : String) : Bool :=
  anySuffix uidShapeAt key.data

/-- Embedding of `detectCacheCorruption(currentUid)` over the list of all
`localStorage` keys.  Keys not starting with the manager's prefix
`habit-tracker` are skipped; with no user signed in, any remaining key
containing a colon is flagged; with a user signed in, any remaining key
not containing the user's id that matches `habit-tracker:[a-zA-Z0-9]+:`
is flagged. -/
def detectCacheCorruption (keys : List String) (currentUid : Option String) :
    Bool :=
  keys.any (fun key =>
    strStarts key managerNS &&
      (match currentUid with
       | none => hasSubStr key ":"
       | some uid => !hasSubStr key uid && uidPatternTest key))

-- ======== The `logout` handler of the authentication provider ========

/-- The individual actions the `logout` handler can perform, in source
order: the body steps (a)–(d) plus the redirect, and the catch-block
fallback `clearAllCache`. -/
inductive LStep
  | purgeUserCache
  | authCacheClear
  | providerSignOut
  | clearLastUidMarker
  | redirectLogin
  | nuclearClearAll
deriving DecidableEq, Repr

/-- The steps of the `try` body of `logout`: the user-cache purge runs only
when a user id is available, followed by the auth-adjacent cache clear, the
provider sign-out, clearing of the last-known-uid marker, and the redirect. -/
def bodySteps (uid : Option String) : List LStep :=
  (match uid with
   | some _ => [LStep.purgeUserCache]
   | none => []) ++
  [LStep.authCacheClear, LStep.providerSignOut, LStep.clearLastUidMarker,
   LStep.redirectLogin]

/-- Sequential execution of steps where `failsAt` tells which steps throw:
returns the completed steps and whether the whole sequence succeeded.  A
throwing step completes nothing and aborts the rest. -/
def runSteps (failsAt : LStep → Bool) : List LStep → List LStep × Bool
  | [] => ([], true)
  | st :: rest =>
    if failsAt st then ([], false)
    else
      let r := runSteps failsAt rest
      (st :: r.1, r.2)

/-- Embedding of the `logout` handler's control flow: run the body; if any
step throws, the `catch` block runs `clearAllCache()` and redirects to the
login page (it does not attempt the provider sign-out). -/
def logoutTrace (uid : Option String) (failsAt : LStep → Bool) : List LStep :=
  let r := runSteps failsAt (bodySteps uid)
  if r.2 then r.1 else r.1 ++ [LStep.nuclearClearAll, LStep.redirectLogin]

-- ======== Basic lemmas about the map operations ========

theorem mapLookup_mapSet_self (l : List (String × β)) (k : String) (v : β) :
    mapLookup (mapSet l k v) k = some v := by
  induction l with
  | nil => simp [mapSet, mapLookup]
  | cons p t ih =>
    by_cases h : p.1 = k
    · simp [mapSet, h, mapLookup]
    · simp [mapSet, h, mapLookup, ih]

theorem mapHas_cons (p : String × β) (t : List (String × β)) (k : String) :
    mapHas (p :: t) k = (decide (p.1 = k) || mapHas t k) := by
  by_cases h : p.1 = k <;> simp [mapHas, mapLookup, h]

theorem mapSet_of_not_has (l : List (String × β)) (k : String) (v : β)
    (h : mapHas l k = false) : mapSet l k v = l ++ [(k, v)] := by
  induction l with
  | nil => simp [mapSet]
  | cons p t ih =>
    rw [mapHas_cons] at h
    simp only [Bool.or_eq_false_iff, decide_eq_false_iff_not] at h
    simp [mapSet, h.1, ih h.2]

theorem mapSet_length_of_has (l : List (String × β)) (k : String) (v : β)
    (h : mapHas l k = true) : (mapSet l k v).length = l.length := by
  induction l with
  | nil => simp [mapHas, mapLookup] at h
  | cons p t ih =>
    rw [mapHas_cons] at h
    by_cases hp : p.1 = k
    · simp [mapSet, hp]
    · simp only [decide_eq_true_eq, Bool.or_eq_true] at h
      rcases h with h | h
      · exact absurd h hp
      · simp [mapSet, hp, ih h]

theorem mapLookup_mapDel_self (l : List (String × β)) (k : String) :
    mapLookup (mapDel l k) k = none := by
  induction l with
  | nil => rfl
  | cons p t ih =>
    by_cases h : p.1 = k <;> simp [mapDel, List.filter, h, mapLookup, ih] <;>
      simpa [mapDel] using ih

theorem mapLookup_filter_keyPred (g : String → Bool) (l : List (String × β))
    (k : String) (hk : g k = true) :
    mapLookup (l.filter (fun p => g p.1)) k = mapLookup l k := by
  induction l with
  | nil => rfl
  | cons p t ih =>
    by_cases h : p.1 = k
    · subst h
      simp [List.filter, hk, mapLookup]
    · cases hg : g p.1 <;> simp [List.filter, hg, mapLookup, h, ih]

theorem keyMem_nil (k : String) : keyMem [] k = false := rfl

theorem keyMem_cons (a : String) (ks : List String) (k : String) :
    keyMem (a :: ks) k = (decide (a = k) || keyMem ks k) := by
  simp [keyMem]

theorem foldl_mapDel_eq_filter (ks : List String) (l : List (String × β)) :
    ks.foldl mapDel l = l.filter (fun p => !(keyMem ks p.1)) := by
  induction ks generalizing l with
  | nil => simp [keyMem]
  | cons a ks ih =>
    have hpt : ∀ x : String, (!(keyMem (a :: ks) x))
        = ((!(keyMem ks x)) && decide (x ≠ a)) := by
      intro x
      by_cases hxa : x = a
      · simp [keyMem_cons, hxa, Bool.and_comm]
      · have hax : ¬(a = x) := fun h => hxa h.symm
        simp [keyMem_cons, hxa, hax, Bool.and_comm]
    calc (a :: ks).foldl mapDel l
        = ks.foldl mapDel (mapDel l a) := rfl
      _ = (mapDel l a).filter (fun p => !(keyMem ks p.1)) := ih _
      _ = l.filter (fun p => (!(keyMem ks p.1)) && decide (p.1 ≠ a)) := by
            rw [mapDel, List.filter_filter]
      _ = l.filter (fun p => !(keyMem (a :: ks) p.1)) := by
            exact List.filter_congr (fun p _ => (hpt p.1).symm)

theorem map_fst_filter_keyPred (g : String → Bool) (l : List (String × β)) :
    (l.filter (fun q => g q.1)).map Prod.fst = (l.map Prod.fst).filter g := by
  induction l with
  | nil => rfl
  | cons p t ih => cases hg : g p.1 <;> simp [List.filter, hg, ih]

theorem keyMem_map_fst_filter (g : String → Bool) (l : List (String × β))
    (p : String × β) (hp : p ∈ l) :
    keyMem ((l.filter (fun q => g q.1)).map Prod.fst) p.1 = g p.1 := by
  cases hg : g p.1 with
  | true =>
    simp only [keyMem, List.any_eq_true, List.mem_map, decide_eq_true_eq]
    exact ⟨p.1, ⟨p, List.mem_filter.2 ⟨hp, hg⟩, rfl⟩, rfl⟩
  | false =>
    rw [Bool.eq_false_iff]
    intro hc
    simp only [keyMem, List.any_eq_true, List.mem_map, decide_eq_true_eq] at hc
    rcases hc with ⟨x, ⟨q, hq, hqx⟩, hxp⟩
    have h2 := (List.mem_filter.1 hq).2
    rw [hqx, hxp, hg] at h2
    exact Bool.false_ne_true h2

theorem eq_of_nodupKeys (l : List (String × β))
    (hnd : (l.map Prod.fst).Nodup) :
    ∀ p ∈ l, ∀ q ∈ l, p.1 = q.1 → p = q := by
  induction l with
  | nil => intro p hp; exact absurd hp (List.not_mem_nil p)
  | cons a t ih =>
    simp only [List.map_cons, List.nodup_cons, List.mem_map] at hnd
    intro p hp q hq hpq
    rcases List.mem_cons.1 hp with rfl | hp' <;>
      rcases List.mem_cons.1 hq with rfl | hq'
    · rfl
    · exact absurd ⟨q, hq', hpq.symm⟩ hnd.1
    · exact absurd ⟨p, hp', hpq⟩ hnd.1
    · exact ih hnd.2 p hp' q hq' hpq

-- ======== Characterization of `get` ========

/-- The value that the storage tier of `get` would serve for `key` in state
`s` at time `now` (derived observation, proven to characterize `getStorage`). -/
def storValueAt (s : CacheState) (now : Int) (key : String) : Option Val :=
  match mapLookup s.storage (storKey key) with
  | some (.ok e) => if entryValid now e then some e.data else none
  | some .bad => none
  | none => none

theorem getStorage_snd (s : CacheState) (now : Int) (key : String) :
    (getStorage s now key).2 = storValueAt s now key := by
  unfold getStorage storValueAt
  cases hs : mapLookup s.storage (storKey key) with
  | none => simp [hs]
  | some sv =>
    cases sv with
    | ok e => cases hv : entryValid now e <;> simp [hs, hv]
    | bad => simp [hs]

theorem getStorage_ghost_fields (s : CacheState) (now : Int) (key : String) :
    (getStorage s now key).1.pendingFetches = s.pendingFetches
    ∧ (getStorage s now key).1.nextFid = s.nextFid
    ∧ (getStorage s now key).1.fetchCount = s.fetchCount
    ∧ (getStorage s now key).1.inflight = s.inflight := by
  unfold getStorage
  cases hs : mapLookup s.storage (storKey key) with
  | none => simp [hs]
  | some sv =>
    cases sv with
    | ok e => cases hv : entryValid now e <;> simp [hs, hv]
    | bad => simp [hs]

theorem getOp_ghost_fields (s : CacheState) (now : Int) (key : String) :
    (getOp s now key).1.pendingFetches = s.pendingFetches
    ∧ (getOp s now key).1.nextFid = s.nextFid
    ∧ (getOp s now key).1.fetchCount = s.fetchCount
    ∧ (getOp s now key).1.inflight = s.inflight := by
  unfold getOp
  cases hm : mapLookup s.memoryCache key with
  | some e =>
    dsimp only
    by_cases hv : entryValid now e = true
    · rw [if_pos hv]
      exact ⟨rfl, rfl, rfl, rfl⟩
    · rw [if_neg hv]
      exact getStorage_ghost_fields _ now key
  | none =>
    dsimp only
    exact getStorage_ghost_fields _ now key

/-- The observable result of `get` depends only on the memory binding of the
key and the storage binding of its namespaced key. -/
theorem getValue_char (s : CacheState) (now : Int) (key : String) :
    getValue s now key =
      (match mapLookup s.memoryCache key with
       | some e => if entryValid now e then some e.data else storValueAt s now key
       | none => storValueAt s now key) := by
  unfold getValue getOp
  cases hm : mapLookup s.memoryCache key with
  | some e =>
    dsimp only
    by_cases hv : entryValid now e = true
    · rw [if_pos hv, if_pos hv]
    · rw [if_neg hv, if_neg hv]
      exact getStorage_snd _ now key
  | none =>
    dsimp only
    exact getStorage_snd _ now key

-- ======== Claim C1: invalidateByUser ========

theorem invByUser_eq (s : CacheState) (u : String) :
    invalidateByUserOp s u =
      { s with
          memoryCache := s.memoryCache.filter (fun p => !(hasSubStr p.1 u))
          storage := s.storage.filter
            (fun p => !(strStarts p.1 nsColon && hasSubStr p.1 u))
          stats := { s.stats with totalEntries :=
            (s.memoryCache.filter (fun p => !(hasSubStr p.1 u))).length } } := by
  have hmemP : s.memoryCache.filter
      (fun p => !(keyMem ((s.memoryCache.filter
        (fun q => hasSubStr q.1 u)).map Prod.fst) p.1))
      = s.memoryCache.filter (fun p => !(hasSubStr p.1 u)) :=
    List.filter_congr (fun p hp => by
      rw [keyMem_map_fst_filter (fun x => hasSubStr x u) s.memoryCache p hp])
  have hstP : s.storage.filter
      (fun p => !(keyMem ((s.storage.map Prod.fst).filter
        (fun sk => strStarts sk nsColon && hasSubStr sk u)) p.1))
      = s.storage.filter (fun p => !(strStarts p.1 nsColon && hasSubStr p.1 u)) :=
    List.filter_congr (fun p hp => by
      rw [← map_fst_filter_keyPred]
      rw [keyMem_map_fst_filter (fun x => strStarts x nsColon && hasSubStr x u)
        s.storage p hp])
  unfold invalidateByUserOp
  simp only [foldl_mapDel_eq_filter]
  rw [hmemP, hstP]

theorem hasSubList_append_right (p l1 l2 : List Char)
    (h : hasSubList p l2 = true) : hasSubList p (l1 ++ l2) = true := by
  induction l1 with
  | nil => exact h
  | cons c t ih => simp [hasSubList, ih]

theorem hasSubStr_storKey_mono (k u : String) (h : hasSubStr k u = true) :
    hasSubStr (storKey k) u = true := by
  have hd : (storKey k).data = "ht-cache:".data ++ k.data := rfl
  unfold hasSubStr at h ⊢
  rw [hd]
  exact hasSubList_append_right _ _ _ h

/-- Claim C1 (amended).  `invalidateByUser(u1)` removes exactly the memory
entries whose key contains `u1` and exactly the persisted entries whose
storage key lies under the `ht-cache:` namespace and contains `u1`; it is
idempotent; and `get` observations of every key whose namespaced storage
key does not contain `u1` (in particular every key of a user `U2` whose
keys do not contain `u1` as a substring) are unchanged, so a still-valid
`U2` entry keeps hitting.  Calling it when no entry matches leaves both
tiers unchanged (the filters keep everything). -/
theorem claim1_user_purge_isolation (s : CacheState) (u1 : String) :
    (invalidateByUserOp s u1).memoryCache
        = s.memoryCache.filter (fun p => !(hasSubStr p.1 u1))
    ∧ (invalidateByUserOp s u1).storage
        = s.storage.filter (fun p => !(strStarts p.1 nsColon && hasSubStr p.1 u1))
    ∧ invalidateByUserOp (invalidateByUserOp s u1) u1 = invalidateByUserOp s u1
    ∧ ∀ k2 now, hasSubStr (storKey k2) u1 = false →
        getValue (invalidateByUserOp s u1) now k2 = getValue s now k2 := by
  refine ⟨by rw [invByUser_eq], by rw [invByUser_eq], ?_, ?_⟩
  · simp only [invByUser_eq, List.filter_filter, Bool.and_self]
  · intro k2 now hfree
    have hk2 : hasSubStr k2 u1 = false := by
      cases hc : hasSubStr k2 u1
      · rfl
      · rw [hasSubStr_storKey_mono k2 u1 hc] at hfree
        exact absurd hfree (by simp)
    have hmem : mapLookup (invalidateByUserOp s u1).memoryCache k2
        = mapLookup s.memoryCache k2 := by
      rw [invByUser_eq]
      exact mapLookup_filter_keyPred (fun x => !(hasSubStr x u1)) _ k2
        (by simp [hk2])
    have hstor : mapLookup (invalidateByUserOp s u1).storage (storKey k2)
        = mapLookup s.storage (storKey k2) := by
      rw [invByUser_eq]
      exact mapLookup_filter_keyPred
        (fun x => !(strStarts x nsColon && hasSubStr x u1)) _ _
        (by simp [hfree])
    have hsv : storValueAt (invalidateByUserOp s u1) now k2
        = storValueAt s now k2 := by
      unfold storValueAt
      rw [hstor]
    rw [getValue_char, getValue_char, hmem, hsv]

/-- Cache populated by users `u1` and `u12`: each user-scoped key literally
contains its own user's identifier, and the users are distinct, as the
claim's hypotheses require. -/
def collisionState : CacheState :=
  setOp (setOp initState 0 "todo:u1:a" 1
      { ttl := 1000, useStorage := true }) 0 "todo:u12:b" 2
    { ttl := 1000, useStorage := true }

/-- Claim C1 as frozen is false: with users `u1` and `u12`, the key
`todo:u12:b` of user `u12` contains its own identifier, yet
`invalidateByUser("u1")` also removes it from both tiers (its key contains
`u1` as a substring), and the subsequent `get` for this still-valid `u12`
key misses instead of hitting. -/
theorem claim1_counterexample :
    hasSubStr "todo:u12:b" "u12" = true
    ∧ ("u1" : String) ≠ "u12"
    ∧ getValue collisionState 1 "todo:u12:b" = some 2
    ∧ mapLookup (invalidateByUserOp collisionState "u1").memoryCache
        "todo:u12:b" = none
    ∧ mapLookup (invalidateByUserOp collisionState "u1").storage
        (storKey "todo:u12:b") = none
    ∧ getValue (invalidateByUserOp collisionState "u1") 1 "todo:u12:b" = none := by
  decide

/-- Witness for C1: a cache holding entries for users `u1` and `u2`
(no identifier a substring of the other's keys); purging `u1` leaves the
`u2` entry hitting with its stored value. -/
def twoUserState : CacheState :=
  setOp (setOp initState 0 "todo:u1:a" 1
      { ttl := 1000, useStorage := true }) 0 "todo:u2:b" 2
    { ttl := 1000, useStorage := true }

theorem claim1_witness :
    hasSubStr (storKey "todo:u2:b") "u1" = false
    ∧ getValue (invalidateByUserOp twoUserState "u1") 1 "todo:u2:b"
        = getValue twoUserState 1 "todo:u2:b"
    ∧ getValue twoUserState 1 "todo:u2:b" = some 2 :=
  ⟨by decide,
   (claim1_user_purge_isolation twoUserState "u1").2.2.2 "todo:u2:b" 1 (by decide),
   by decide⟩

-- ======== Claims C2, C5, C6: getOrFetch, de-duplication, SWR ========

theorem getOrFetchStep_pending (s : CacheState) (now : Int) (key : String)
    (o : CacheOptions) (fid : Nat)
    (h : mapLookup s.pendingFetches key = some fid) :
    getOrFetchStep s now key o = (s, .attached fid) := by
  unfold getOrFetchStep
  rw [h]

/-- Claim C2: request de-duplication.  On a miss with no pending fetch, a
`getOrFetch` call invokes the fetcher exactly once (the invocation count
rises by one and the call reports a freshly started fetch) and registers
the promise under the key; every later `getOrFetch` for the key made while
that fetch is unresolved changes nothing (in particular invokes no
fetcher) and attaches to the very same promise, so all N callers resolve
to the identical value delivered by that promise. -/
theorem claim2_dedup (s : CacheState) (now : Int) (key : String)
    (o : CacheOptions)
    (hp : mapLookup s.pendingFetches key = none)
    (hm : getValue s now key = none) :
    (getOrFetchStep s now key o).2 = GFResult.started s.nextFid
    ∧ (getOrFetchStep s now key o).1.fetchCount = s.fetchCount + 1
    ∧ mapLookup (getOrFetchStep s now key o).1.pendingFetches key
        = some s.nextFid
    ∧ (∀ now2 o2, getOrFetchStep (getOrFetchStep s now key o).1 now2 key o2
        = ((getOrFetchStep s now key o).1, GFResult.attached s.nextFid))
    ∧ ∀ n now2 o2, gfRepeat n (getOrFetchStep s now key o).1 now2 key o2
        = ((getOrFetchStep s now key o).1,
           List.replicate n (GFResult.attached s.nextFid)) := by
  have hm' : (getOp s now key).2 = none := hm
  obtain ⟨hgp, hgn, hgc, hgi⟩ := getOp_ghost_fields s now key
  have hstep : getOrFetchStep s now key o
      = ({ (getOp s now key).1 with
             fetchCount := (getOp s now key).1.fetchCount + 1
             inflight := ((getOp s now key).1.nextFid, key, FetchKind.foreground)
               :: (getOp s now key).1.inflight
             pendingFetches := mapSet (getOp s now key).1.pendingFetches key
               (getOp s now key).1.nextFid
             nextFid := (getOp s now key).1.nextFid + 1 },
         .started (getOp s now key).1.nextFid) := by
    unfold getOrFetchStep
    rw [hp]
    dsimp only
    rw [hm']
  have h3 : mapLookup (getOrFetchStep s now key o).1.pendingFetches key
      = some s.nextFid := by
    rw [hstep]
    dsimp only
    rw [mapLookup_mapSet_self, hgn]
  have h4 : ∀ now2 o2, getOrFetchStep (getOrFetchStep s now key o).1 now2 key o2
      = ((getOrFetchStep s now key o).1, GFResult.attached s.nextFid) :=
    fun now2 o2 => getOrFetchStep_pending _ now2 key o2 _ h3
  refine ⟨by rw [hstep, hgn], by rw [hstep]; dsimp only; rw [hgc], h3, h4, ?_⟩
  intro n now2 o2
  induction n with
  | zero => rfl
  | succ m ih =>
    rw [gfRepeat]
    try dsimp only
    rw [h4 now2 o2]
    dsimp only
    rw [ih]
    simp [List.replicate_succ]

/-- Witness for C2 on the empty cache: the first call starts fetch 0 and
counts one fetcher invocation; three further calls made while it is
unresolved all attach to fetch 0 and leave the state untouched. -/
theorem claim2_witness :
    (getOrFetchStep initState 0 "k" {}).2 = GFResult.started 0
    ∧ (getOrFetchStep initState 0 "k" {}).1.fetchCount = 1
    ∧ gfRepeat 3 (getOrFetchStep initState 0 "k" {}).1 0 "k" {}
        = ((getOrFetchStep initState 0 "k" {}).1,
           List.replicate 3 (GFResult.attached 0)) :=
  ⟨(claim2_dedup initState 0 "k" {} rfl rfl).1,
   (claim2_dedup initState 0 "k" {} rfl rfl).2.1,
   (claim2_dedup initState 0 "k" {} rfl rfl).2.2.2.2 3 0 {}⟩

/-- Claim C5 (amended): the pending-fetch table is a single-flight gate
for `getOrFetch`-initiated fetches only.  While a pending fetch for a key
is registered, a `getOrFetch` call attaches to it, changes nothing, and
starts no new fetcher invocation; the gate is cleared by that fetch's
success or failure.  Detached stale-while-revalidate background refreshes
bypass the gate, so several fetches for one key can be in flight at once
(see the counterexample). -/
theorem claim5_single_flight_gate (s : CacheState) (now : Int) (key : String)
    (o : CacheOptions) (fid : Nat) (v : Val)
    (h : mapLookup s.pendingFetches key = some fid) :
    getOrFetchStep s now key o = (s, GFResult.attached fid)
    ∧ mapLookup (resolveForegroundOk s now fid key v o).pendingFetches key
        = none
    ∧ mapLookup (resolveForegroundErr s fid key).pendingFetches key = none := by
  refine ⟨getOrFetchStep_pending s now key o fid h, ?_, ?_⟩
  · unfold resolveForegroundOk
    exact mapLookup_mapDel_self _ _
  · unfold resolveForegroundErr
    exact mapLookup_mapDel_self _ _

/-- A cache holding fetch 5 as pending for key `k`. -/
def pendingState : CacheState := { initState with pendingFetches := [("k", 5)] }

theorem claim5_witness :
    getOrFetchStep pendingState 0 "k" {} = (pendingState, GFResult.attached 5)
    ∧ mapLookup (resolveForegroundOk pendingState 0 5 "k" 3 {}).pendingFetches
        "k" = none
    ∧ mapLookup (resolveForegroundErr pendingState 5 "k").pendingFetches "k"
        = none :=
  claim5_single_flight_gate pendingState 0 "k" {} 5 3 rfl

/-- A memory entry for `k` written at time 0 with a 10 ms TTL. -/
def swrState : CacheState :=
  { initState with memoryCache := [("k", ⟨7, 0, 10, []⟩)] }

/-- State after one `getOrFetch` with `staleWhileRevalidate` at time 9
(age 90 percent of TTL: stale but valid). -/
def swrOnce : CacheState :=
  (getOrFetchStep swrState 9 "k" { staleWhileRevalidate := true }).1

/-- State after a second identical `getOrFetch` before the first background
refresh resolves. -/
def swrTwice : CacheState :=
  (getOrFetchStep swrOnce 9 "k" { staleWhileRevalidate := true }).1

/-- Claim C5 as frozen is false: two `getOrFetch` calls on a stale-but-valid
entry each trigger a detached background refresh without consulting or
setting the pending-fetch gate, so two fetcher invocations for the key `k`
are in flight simultaneously while the pending-fetch table stayed empty
throughout (no gate was ever taken or cleared between them). -/
theorem claim5_counterexample :
    swrTwice.inflight
      = [(1, "k", FetchKind.background), (0, "k", FetchKind.background)]
    ∧ (swrTwice.inflight.filter (fun t => decide (t.2.1 = "k"))).length = 2
    ∧ swrTwice.fetchCount = 2
    ∧ swrOnce.pendingFetches = [] ∧ swrTwice.pendingFetches = [] := by
  decide

/-- Claim C6: stale-while-revalidate.  With no pending fetch for the key
and a valid memory entry, a `getOrFetch` call with `staleWhileRevalidate`
returns the cached value immediately; if the entry's age exceeds 80
percent of its TTL it also starts exactly one detached background fetcher
invocation (invocation count up by one, one background in-flight record,
nothing registered in the pending table, tiers untouched), otherwise it
starts none.  A background refresh writes its result back via `set` and a
failed one is swallowed: it changes nothing but the in-flight record. -/
theorem claim6_swr (s : CacheState) (now : Int) (key : String)
    (o : CacheOptions) (e : CacheEntry)
    (ho : o.staleWhileRevalidate = true)
    (hp : mapLookup s.pendingFetches key = none)
    (he : mapLookup s.memoryCache key = some e)
    (hv : entryValid now e = true) :
    (entryStale now e = true →
      getOrFetchStep s now key o =
        ({ s with
             stats := { s.stats with memoryHits := s.stats.memoryHits + 1 }
             fetchCount := s.fetchCount + 1
             inflight := (s.nextFid, key, FetchKind.background) :: s.inflight
             nextFid := s.nextFid + 1 },
         GFResult.hit e.data))
    ∧ (entryStale now e = false →
      getOrFetchStep s now key o =
        ({ s with stats :=
             { s.stats with memoryHits := s.stats.memoryHits + 1 } },
         GFResult.hit e.data))
    ∧ (∀ s2 fid, resolveBackgroundErr s2 fid
        = { s2 with inflight :=
              s2.inflight.filter (fun t => decide (t.1 ≠ fid)) })
    ∧ (∀ s2 now2 fid v2,
        (resolveBackgroundOk s2 now2 fid key v2 o).memoryCache
          = (setOp s2 now2 key v2 o).memoryCache
        ∧ (resolveBackgroundOk s2 now2 fid key v2 o).storage
          = (setOp s2 now2 key v2 o).storage) := by
  have hgo : getOp s now key
      = ({ s with stats :=
             { s.stats with memoryHits := s.stats.memoryHits + 1 } },
         some e.data) := by
    unfold getOp
    rw [he]
    dsimp only
    rw [if_pos hv]
  refine ⟨?_, ?_, fun s2 fid => rfl, fun s2 now2 fid v2 => ⟨rfl, rfl⟩⟩
  · intro hst
    unfold getOrFetchStep
    rw [hp]
    dsimp only
    rw [hgo]
    try dsimp only
    rw [ho]
    try dsimp only
    rw [he]
    try dsimp only
    rw [if_pos hst]
    rfl
  · intro hst
    unfold getOrFetchStep
    rw [hp]
    dsimp only
    rw [hgo]
    try dsimp only
    rw [ho]
    try dsimp only
    rw [he]
    try dsimp only
    rw [if_neg (show ¬(entryStale now e = true) by simp [hst])]
    rfl

/-- A memory entry for `k` written at time 0 with a 100 ms TTL. -/
def staleEntryState : CacheState :=
  { initState with memoryCache := [("k", ⟨7, 0, 100, []⟩)] }

/-- Witness for C6: at 85 percent of TTL the cached value is returned and
exactly one background fetch starts; at 50 percent the value is returned
and no fetch starts. -/
theorem claim6_witness :
    getOrFetchStep staleEntryState 85 "k" { staleWhileRevalidate := true }
      = ({ staleEntryState with
             stats := { staleEntryState.stats with memoryHits := 1 }
             fetchCount := 1
             inflight := [(0, "k", FetchKind.background)]
             nextFid := 1 },
         GFResult.hit 7)
    ∧ getOrFetchStep staleEntryState 50 "k" { staleWhileRevalidate := true }
      = ({ staleEntryState with
             stats := { staleEntryState.stats with memoryHits := 1 } },
         GFResult.hit 7) :=
  ⟨(claim6_swr staleEntryState 85 "k" { staleWhileRevalidate := true }
      ⟨7, 0, 100, []⟩ rfl rfl rfl (by decide)).1 (by decide),
   (claim6_swr staleEntryState 50 "k" { staleWhileRevalidate := true }
      ⟨7, 0, 100, []⟩ rfl rfl rfl (by decide)).2.1 (by decide)⟩

-- ======== Claim C3: TTL expiry ========

theorem setOp_mem_lookup (s : CacheState) (now0 : Int) (k : String) (v : Val)
    (o : CacheOptions) (hm : o.useMemory = true) :
    mapLookup (setOp s now0 k v o).memoryCache k
      = some ⟨v, now0, o.ttl, o.tags⟩ := by
  cases hs : o.useStorage <;> simp [setOp, hm, hs, mapLookup_mapSet_self]

theorem setOp_storage_of_true (s : CacheState) (now0 : Int) (k : String)
    (v : Val) (o : CacheOptions) (hs : o.useStorage = true) :
    (setOp s now0 k v o).storage
      = mapSet s.storage (storKey k) (.ok ⟨v, now0, o.ttl * 2, o.tags⟩) := by
  cases hmem : o.useMemory <;> simp [setOp, hmem, hs]

theorem setOp_storage_of_false (s : CacheState) (now0 : Int) (k : String)
    (v : Val) (o : CacheOptions) (hs : o.useStorage = false) :
    (setOp s now0 k v o).storage = s.storage := by
  cases hmem : o.useMemory <;> simp [setOp, hmem, hs]

theorem getStorage_none (s : CacheState) (now : Int) (key : String)
    (h : mapLookup s.storage (storKey key) = none) :
    getStorage s now key =
      ({ s with stats :=
           { s.stats with storageMisses := s.stats.storageMisses + 1 } },
       none) := by
  simp [getStorage, h]

theorem getStorage_expired (s : CacheState) (now : Int) (key : String)
    (e : CacheEntry) (h : mapLookup s.storage (storKey key) = some (.ok e))
    (hv : entryValid now e = false) :
    getStorage s now key =
      ({ s with storage := mapDel s.storage (storKey key)
                stats := { s.stats with
                  storageMisses := s.stats.storageMisses + 1 } },
       none) := by
  simp [getStorage, h, hv]

theorem getOp_mem_expired (s : CacheState) (now : Int) (key : String)
    (e : CacheEntry) (he : mapLookup s.memoryCache key = some e)
    (hv : entryValid now e = false) :
    getOp s now key =
      getStorage
        { s with memoryCache := mapDel s.memoryCache key
                 stats := { s.stats with
                   memoryMisses := s.stats.memoryMisses + 1 } }
        now key := by
  unfold getOp
  rw [he]
  dsimp only
  rw [if_neg (by simp [hv])]

theorem getOp_expired_then_storage_none (s : CacheState) (now : Int)
    (key : String) (e : CacheEntry)
    (he : mapLookup s.memoryCache key = some e)
    (hv : entryValid now e = false)
    (hn : mapLookup s.storage (storKey key) = none) :
    getOp s now key =
      ({ s with memoryCache := mapDel s.memoryCache key
                stats := { s.stats with
                  memoryMisses := s.stats.memoryMisses + 1
                  storageMisses := s.stats.storageMisses + 1 } },
       none) := by
  rw [getOp_mem_expired s now key e he hv]
  rw [getStorage_none]
  exact hn

theorem getOp_expired_twice (s : CacheState) (now : Int) (key : String)
    (e e2 : CacheEntry)
    (he : mapLookup s.memoryCache key = some e)
    (hv : entryValid now e = false)
    (h2 : mapLookup s.storage (storKey key) = some (.ok e2))
    (hv2 : entryValid now e2 = false) :
    getOp s now key =
      ({ s with memoryCache := mapDel s.memoryCache key
                storage := mapDel s.storage (storKey key)
                stats := { s.stats with
                  memoryMisses := s.stats.memoryMisses + 1
                  storageMisses := s.stats.storageMisses + 1 } },
       none) := by
  rw [getOp_mem_expired s now key e he hv]
  rw [getStorage_expired _ now key e2]
  · exact h2
  · exact hv2

/-- Claim C3 (amended): for an entry stored under key `k` at time `now0`
with TTL `t` (memory tier in use), `get` returns the value whenever
`now - now0 < t`.  When `now - now0 ≥ t`: for a memory-only entry `get`
returns absent and the key is gone from the memory tier; for a persisted
entry the storage copy carries TTL `2·t`, so `get` still returns the value
while `now - now0 < 2·t` (restoring it to memory), and only at
`now - now0 ≥ 2·t` does `get` return absent and remove the entry from both
tiers. -/
theorem claim3_ttl (s : CacheState) (now0 now : Int) (k : String) (v : Val)
    (o : CacheOptions) (hm : o.useMemory = true) (hpos : 0 ≤ o.ttl) :
    (now - now0 < o.ttl → getValue (setOp s now0 k v o) now k = some v)
    ∧ (o.useStorage = false → mapLookup s.storage (storKey k) = none →
        o.ttl ≤ now - now0 →
        getValue (setOp s now0 k v o) now k = none
        ∧ mapLookup ((getOp (setOp s now0 k v o) now k).1).memoryCache k
            = none)
    ∧ (o.useStorage = true → o.ttl ≤ now - now0 → now - now0 < o.ttl * 2 →
        getValue (setOp s now0 k v o) now k = some v)
    ∧ (o.useStorage = true → o.ttl * 2 ≤ now - now0 →
        getValue (setOp s now0 k v o) now k = none
        ∧ mapLookup ((getOp (setOp s now0 k v o) now k).1).memoryCache k
            = none
        ∧ mapLookup ((getOp (setOp s now0 k v o) now k).1).storage (storKey k)
            = none) := by
  have hlook : mapLookup (setOp s now0 k v o).memoryCache k
      = some ⟨v, now0, o.ttl, o.tags⟩ := setOp_mem_lookup s now0 k v o hm
  refine ⟨?_, ?_, ?_, ?_⟩
  · intro hlt
    rw [getValue_char, hlook]
    dsimp only
    rw [if_pos (show entryValid now ⟨v, now0, o.ttl, o.tags⟩ = true by
      simp [entryValid]; omega)]
  · intro hs hnone hge
    have hval : entryValid now (⟨v, now0, o.ttl, o.tags⟩ : CacheEntry)
        = false := by simp [entryValid]; omega
    have hst : mapLookup (setOp s now0 k v o).storage (storKey k) = none := by
      rw [setOp_storage_of_false s now0 k v o hs]; exact hnone
    constructor
    · rw [getValue_char, hlook]
      dsimp only
      rw [if_neg (by simp [hval])]
      unfold storValueAt
      rw [hst]
    · rw [getOp_expired_then_storage_none _ _ _ _ hlook hval hst]
      dsimp only
      exact mapLookup_mapDel_self _ _
  · intro hs hge hlt2
    have hval : entryValid now (⟨v, now0, o.ttl, o.tags⟩ : CacheEntry)
        = false := by simp [entryValid]; omega
    have hst2 : mapLookup (setOp s now0 k v o).storage (storKey k)
        = some (.ok ⟨v, now0, o.ttl * 2, o.tags⟩) := by
      rw [setOp_storage_of_true s now0 k v o hs]
      exact mapLookup_mapSet_self _ _ _
    rw [getValue_char, hlook]
    dsimp only
    rw [if_neg (by simp [hval])]
    unfold storValueAt
    rw [hst2]
    dsimp only
    rw [if_pos (show entryValid now ⟨v, now0, o.ttl * 2, o.tags⟩ = true by
      simp [entryValid]; omega)]
  · intro hs hge2
    have hval : entryValid now (⟨v, now0, o.ttl, o.tags⟩ : CacheEntry)
        = false := by simp [entryValid]; omega
    have hval2 : entryValid now (⟨v, now0, o.ttl * 2, o.tags⟩ : CacheEntry)
        = false := by simp [entryValid]; omega
    have hst2 : mapLookup (setOp s now0 k v o).storage (storKey k)
        = some (.ok ⟨v, now0, o.ttl * 2, o.tags⟩) := by
      rw [setOp_storage_of_true s now0 k v o hs]
      exact mapLookup_mapSet_self _ _ _
    refine ⟨?_, ?_, ?_⟩
    · rw [getValue_char, hlook]
      dsimp only
      rw [if_neg (by simp [hval])]
      unfold storValueAt
      rw [hst2]
      dsimp only
      rw [if_neg (by simp [hval2])]
    · rw [getOp_expired_twice _ _ _ _ _ hlook hval hst2 hval2]
      dsimp only
      exact mapLookup_mapDel_self _ _
    · rw [getOp_expired_twice _ _ _ _ _ hlook hval hst2 hval2]
      dsimp only
      exact mapLookup_mapDel_self _ _

/-- An entry stored at time 0 under key `k` with TTL 10 ms, persisted to
the storage tier (which stretches the TTL to 20 ms). -/
def shortTTLState : CacheState :=
  setOp initState 0 "k" 7 { ttl := 10, useStorage := true }

/-- Claim C3 as frozen is false: the entry was stored with `ttl = 10` at
time 0, yet at time 15 (so `now - timestamp ≥ ttl`) `get` still returns
the stored value — the persisted copy lives for `2 × ttl` and is even
promoted back into the memory tier — instead of returning absent with the
entry gone from both tiers. -/
theorem claim3_counterexample :
    (10 : Int) ≤ 15 - 0
    ∧ getValue shortTTLState 15 "k" = some 7
    ∧ mapHas ((getOp shortTTLState 15 "k").1).memoryCache "k" = true := by
  decide

/-- Witness for C3 on the persisted 10 ms entry: a hit at 5 ms, a hit at
15 ms (storage-stretched TTL), and a miss with both tiers purged at 25 ms. -/
theorem claim3_witness :
    getValue shortTTLState 5 "k" = some 7
    ∧ getValue shortTTLState 15 "k" = some 7
    ∧ getValue shortTTLState 25 "k" = none
    ∧ mapLookup ((getOp shortTTLState 25 "k").1).storage (storKey "k")
        = none :=
  ⟨(claim3_ttl initState 0 5 "k" 7 { ttl := 10, useStorage := true } rfl
      (by decide)).1 (by decide),
   (claim3_ttl initState 0 15 "k" 7 { ttl := 10, useStorage := true } rfl
      (by decide)).2.2.1 rfl (by decide) (by decide),
   ((claim3_ttl initState 0 25 "k" 7 { ttl := 10, useStorage := true } rfl
      (by decide)).2.2.2 rfl (by decide)).1,
   ((claim3_ttl initState 0 25 "k" 7 { ttl := 10, useStorage := true } rfl
      (by decide)).2.2.2 rfl (by decide)).2.2⟩

-- ======== Claims C4 and C10: memory bound and eviction ========

theorem setOp_mem_at_capacity (s : CacheState) (now : Int) (k : String)
    (v : Val) (o : CacheOptions) (hm : o.useMemory = true)
    (hcap : MAX_MEMORY_ENTRIES ≤ s.memoryCache.length) :
    (setOp s now k v o).memoryCache
      = mapSet (evictOldest s.memoryCache) k ⟨v, now, o.ttl, o.tags⟩ := by
  cases hstor : o.useStorage <;> simp [setOp, hm, hstor, hcap]

/-- Claim C4 (amended): `set` preserves the 100-entry memory bound — at
capacity with a fresh (nonempty-keyed) tier it evicts exactly the
oldest-inserted entry before admitting the new key, leaving the tier at
100 — but `get`'s promotion of a valid persisted entry back into the
memory tier performs no bound check, so a reachable state has 101 memory
entries (see the counterexample). -/
theorem claim4_eviction_bound (s : CacheState) (now : Int) (k : String)
    (v : Val) (o : CacheOptions) (k0 : String) (e0 : CacheEntry)
    (hm : o.useMemory = true)
    (hlen : s.memoryCache.length = 100)
    (hnew : mapHas s.memoryCache k = false)
    (hhead : s.memoryCache.head? = some (k0, e0))
    (hk0 : k0 ≠ "") :
    (setOp s now k v o).memoryCache
        = s.memoryCache.tail ++ [(k, ⟨v, now, o.ttl, o.tags⟩)]
    ∧ (setOp s now k v o).memoryCache.length = 100 := by
  have hcap : MAX_MEMORY_ENTRIES ≤ s.memoryCache.length := by
    simp [MAX_MEMORY_ENTRIES, hlen]
  have hmem := setOp_mem_at_capacity s now k v o hm hcap
  cases hmc : s.memoryCache with
  | nil => rw [hmc] at hlen; simp at hlen
  | cons p t =>
    rw [hmc] at hhead
    simp only [List.head?_cons, Option.some.injEq] at hhead
    subst hhead
    rw [hmc] at hmem hnew hlen
    have hev : evictOldest ((k0, e0) :: t) = t := by
      simp [evictOldest, hk0]
    rw [hev] at hmem
    rw [mapHas_cons] at hnew
    simp only [Bool.or_eq_false_iff, decide_eq_false_iff_not] at hnew
    rw [mapSet_of_not_has t k _ hnew.2] at hmem
    simp only [List.length_cons] at hlen
    constructor
    · rw [hmem]
      rfl
    · rw [hmem]
      simp only [List.length_append, List.length_cons, List.length_nil]
      omega

/-- Cache reached from the empty cache by 100 memory-tier writes of the
distinct keys `k0` … `k99`. -/
def bigMem : CacheState :=
  (List.range 100).foldl
    (fun st i => setOp st 0 ("k" ++ toString i) 0 {}) initState

/-- `bigMem` followed by one storage-only write of key `pk`: the memory
tier is exactly at the 100-entry bound and a valid entry for `pk` sits
only in the persistent tier. -/
def bigState : CacheState :=
  setOp bigMem 0 "pk" 7 { ttl := 10, useMemory := false, useStorage := true }

set_option maxRecDepth 1000000 in
/-- Claim C4 as frozen is false: `bigState` is reachable through the cache
interface from the empty cache, its memory tier holds exactly 100 entries,
and a single `get` of the persisted key `pk` promotes it into the memory
tier with no bound check, leaving 101 entries — the promotion path does
not preserve the bound. -/
theorem claim4_counterexample :
    bigState.memoryCache.length = 100
    ∧ (getOp bigState 5 "pk").2 = some 7
    ∧ (getOp bigState 5 "pk").1.memoryCache.length = 101 := by
  decide

set_option maxRecDepth 1000000 in
/-- Witness for C4: inserting the fresh key `zz` into the full 100-entry
tier of `bigState` evicts exactly the oldest-inserted entry `k0` and
leaves the tier at 100. -/
theorem claim4_witness :
    (setOp bigState 1 "zz" 9 {}).memoryCache
        = bigState.memoryCache.tail ++ [("zz", ⟨9, 1, 5 * 60 * 1000, []⟩)]
    ∧ (setOp bigState 1 "zz" 9 {}).memoryCache.length = 100 :=
  claim4_eviction_bound bigState 1 "zz" 9 {} "k0" ⟨0, 0, 5 * 60 * 1000, []⟩
    rfl (by decide) (by decide) (by decide) (by decide)

/-- Claim C10: update-at-capacity eviction.  When `set` runs with the
memory tier at or above 100 entries and the written key is already present
(and is not the oldest-inserted entry, whose key is nonempty), the
oldest-inserted entry is still evicted even though no new key is admitted:
the result is the tail of the tier with the key's entry replaced in place,
one entry smaller than before the call. -/
theorem claim10_update_at_capacity (s : CacheState) (now : Int) (k : String)
    (v : Val) (o : CacheOptions) (k0 : String) (e0 : CacheEntry)
    (hm : o.useMemory = true)
    (hlen : MAX_MEMORY_ENTRIES ≤ s.memoryCache.length)
    (hhead : s.memoryCache.head? = some (k0, e0))
    (hk0 : k0 ≠ "")
    (hkk0 : k ≠ k0)
    (hhas : mapHas s.memoryCache k = true) :
    (setOp s now k v o).memoryCache
        = mapSet s.memoryCache.tail k ⟨v, now, o.ttl, o.tags⟩
    ∧ (setOp s now k v o).memoryCache.length = s.memoryCache.length - 1 := by
  have hmem := setOp_mem_at_capacity s now k v o hm hlen
  cases hmc : s.memoryCache with
  | nil => rw [hmc] at hhead; simp at hhead
  | cons p t =>
    rw [hmc] at hhead
    simp only [List.head?_cons, Option.some.injEq] at hhead
    subst hhead
    rw [hmc] at hmem hhas
    have hev : evictOldest ((k0, e0) :: t) = t := by
      simp [evictOldest, hk0]
    rw [hev] at hmem
    rw [mapHas_cons] at hhas
    have hkt : mapHas t k = true := by
      cases hx : mapHas t k
      · rw [hx] at hhas
        simp only [Bool.or_false, decide_eq_true_eq] at hhas
        exact absurd hhas.symm hkk0
      · rfl
    constructor
    · rw [hmem]
      rfl
    · rw [hmem, mapSet_length_of_has t k _ hkt]
      simp

set_option maxRecDepth 1000000 in
/-- Witness for C10: updating the already-present key `k5` while
`bigState`'s memory tier is at the 100-entry capacity still evicts the
oldest entry `k0`, leaving 99 entries. -/
theorem claim10_witness :
    (setOp bigState 1 "k5" 9 {}).memoryCache.length = 99 :=
  ((claim10_update_at_capacity bigState 1 "k5" 9 {} "k0"
      ⟨0, 0, 5 * 60 * 1000, []⟩ rfl (by decide) (by decide) (by decide)
      (by decide) (by decide)).2).trans (by decide)

-- ======== Claim C7: invalidate ========

theorem keyMem_entryPred (l : List (String × β)) (g : String × β → Bool)
    (hnd : (l.map Prod.fst).Nodup) (p : String × β) (hp : p ∈ l) :
    keyMem ((l.filter g).map Prod.fst) p.1 = g p := by
  cases hg : g p with
  | true =>
    simp only [keyMem, List.any_eq_true, List.mem_map, decide_eq_true_eq]
    exact ⟨p.1, ⟨p, List.mem_filter.2 ⟨hp, hg⟩, rfl⟩, rfl⟩
  | false =>
    rw [Bool.eq_false_iff]
    intro hc
    simp only [keyMem, List.any_eq_true, List.mem_map, decide_eq_true_eq] at hc
    rcases hc with ⟨y, ⟨q, hq, hqy⟩, hyp⟩
    have hq' := List.mem_filter.1 hq
    have : q = p := eq_of_nodupKeys l hnd q hq'.1 p hp (hqy.trans hyp)
    rw [this, hg] at hq'
    exact Bool.false_ne_true hq'.2

theorem invalidateOp_fuzzy (s : CacheState) (x : String)
    (h : mapHas s.memoryCache x = false)
    (hnd : (s.memoryCache.map Prod.fst).Nodup) :
    invalidateOp s x =
      { s with
          memoryCache := s.memoryCache.filter
            (fun p => !(p.2.tags.contains x || strStarts p.1 x))
          storage := s.storage.filter
            (fun p => !(keyMem (((s.memoryCache.filter
                (fun q => q.2.tags.contains x || strStarts q.1 x)).map
                  Prod.fst).map storKey) p.1
              || (strStarts p.1 nsColon && hasSubStr p.1 x))) } := by
  unfold invalidateOp
  rw [if_neg (by simp [h])]
  simp only [← List.foldl_map storKey mapDel, foldl_mapDel_eq_filter]
  have hm2 : s.memoryCache.filter
      (fun p => !(keyMem ((s.memoryCache.filter
        (fun q => q.2.tags.contains x || strStarts q.1 x)).map Prod.fst) p.1))
      = s.memoryCache.filter
        (fun p => !(p.2.tags.contains x || strStarts p.1 x)) :=
    List.filter_congr (fun p hp => by
      rw [keyMem_entryPred s.memoryCache _ hnd p hp])
  rw [hm2]
  have hscan : ∀ st1 : List (String × StoredVal),
      st1.filter (fun p => !(keyMem ((st1.map Prod.fst).filter
        (fun sk => strStarts sk nsColon && hasSubStr sk x)) p.1))
      = st1.filter (fun p => !(strStarts p.1 nsColon && hasSubStr p.1 x)) :=
    fun st1 =>
      List.filter_congr (fun p hp => by
        rw [← map_fst_filter_keyPred
            (fun sk => strStarts sk nsColon && hasSubStr sk x) st1,
          keyMem_map_fst_filter
            (fun sk => strStarts sk nsColon && hasSubStr sk x) st1 p hp])
  rw [hscan]
  rw [List.filter_filter]
  have hcomb : ∀ p : String × StoredVal,
      ((!(strStarts p.1 nsColon && hasSubStr p.1 x))
        && (!(keyMem (((s.memoryCache.filter
              (fun q => q.2.tags.contains x || strStarts q.1 x)).map
                Prod.fst).map storKey) p.1)))
      = (!(keyMem (((s.memoryCache.filter
            (fun q => q.2.tags.contains x || strStarts q.1 x)).map
              Prod.fst).map storKey) p.1
          || (strStarts p.1 nsColon && hasSubStr p.1 x))) := by
    intro p
    rw [Bool.not_or, Bool.and_comm]
  rw [List.filter_congr (fun p _ => hcomb p)]

/-- Claim C7 (amended): invalidation semantics.  When the argument `x` is a
key currently present in the memory tier, `invalidate(x)` removes exactly
that entry from the memory tier together with its `ht-cache:`-namespaced
storage record, and nothing else.  Otherwise it removes exactly the memory
entries whose tag list contains `x` or whose key starts with `x` (together
with their storage mirrors), plus every persisted entry under the cache
namespace whose storage key contains `x` as a substring; entries matching
none of these conditions — in particular entries written with a different
tag and a non-matching key — are unaffected. -/
theorem claim7_invalidate (s : CacheState) (x : String)
    (hnd : (s.memoryCache.map Prod.fst).Nodup) :
    (mapHas s.memoryCache x = true →
      invalidateOp s x
        = { s with memoryCache := mapDel s.memoryCache x
                   storage := mapDel s.storage (storKey x) })
    ∧ (mapHas s.memoryCache x = false →
      invalidateOp s x =
        { s with
            memoryCache := s.memoryCache.filter
              (fun p => !(p.2.tags.contains x || strStarts p.1 x))
            storage := s.storage.filter
              (fun p => !(keyMem (((s.memoryCache.filter
                  (fun q => q.2.tags.contains x || strStarts q.1 x)).map
                    Prod.fst).map storKey) p.1
                || (strStarts p.1 nsColon && hasSubStr p.1 x))) }) := by
  constructor
  · intro h
    unfold invalidateOp
    rw [if_pos h]
  · intro h
    exact invalidateOp_fuzzy s x h hnd

/-- A cache where key `a` is present only in the persistent tier while an
unrelated key `ab` sits in the memory tier. -/
def mixedState : CacheState :=
  { initState with
      memoryCache := [("ab", ⟨1, 0, 1000, []⟩)]
      storage := [(storKey "a", .ok ⟨2, 0, 1000, []⟩)] }

/-- Claim C7 as frozen is false: `a` is an exact key currently present in
the cache (its persistent tier), yet `invalidate("a")` does not remove
just that single entry — because the exact-match check consults only the
memory tier, the call falls through to fuzzy matching and also removes the
distinct entry `ab` (whose key merely starts with `a`). -/
theorem claim7_counterexample :
    mapLookup mixedState.storage (storKey "a") = some (.ok ⟨2, 0, 1000, []⟩)
    ∧ mapHas mixedState.memoryCache "a" = false
    ∧ mapLookup mixedState.memoryCache "ab" = some ⟨1, 0, 1000, []⟩
    ∧ mapLookup (invalidateOp mixedState "a").memoryCache "ab" = none := by
  decide

/-- Entries tagged `todo:U1` and `todo:U2` in memory, with the `todo:U1`
entry mirrored in storage. -/
def taggedState : CacheState :=
  { initState with
      memoryCache := [("x1", ⟨1, 0, 1000, ["todo:U1"]⟩),
                      ("y1", ⟨2, 0, 1000, ["todo:U2"]⟩)]
      storage := [(storKey "x1", .ok ⟨1, 0, 1000, ["todo:U1"]⟩)] }

/-- A cache with the exact key `a` present in the memory tier (plus its
storage mirror) and an unrelated key `b`. -/
def directState : CacheState :=
  { initState with
      memoryCache := [("a", ⟨1, 0, 1000, []⟩), ("b", ⟨2, 0, 1000, []⟩)]
      storage := [(storKey "a", .ok ⟨1, 0, 1000, []⟩)] }

/-- Witness for C7: tag invalidation removes exactly the `todo:U1`-tagged
entry (both tiers) and leaves the `todo:U2`-tagged entry; exact-key
invalidation removes exactly the entry `a` from both tiers and leaves `b`. -/
theorem claim7_witness :
    invalidateOp taggedState "todo:U1"
      = { taggedState with
            memoryCache := [("y1", ⟨2, 0, 1000, ["todo:U2"]⟩)]
            storage := [] }
    ∧ invalidateOp directState "a"
      = { directState with
            memoryCache := [("b", ⟨2, 0, 1000, []⟩)]
            storage := [] } :=
  ⟨((claim7_invalidate taggedState "todo:U1" (by decide)).2
      (by decide)).trans (by decide),
   ((claim7_invalidate directState "a" (by decide)).1 (by decide)).trans
      (by decide)⟩

-- ======== Claim C8: logout fallback ========

theorem runSteps_all_ok (f : LStep → Bool) (l : List LStep)
    (h : ∀ st ∈ l, f st = false) : runSteps f l = (l, true) := by
  induction l with
  | nil => rfl
  | cons a t ih =>
    have ha := h a (List.mem_cons_self a t)
    simp [runSteps, ha, ih (fun st hst => h st (List.mem_cons_of_mem a hst))]

theorem runSteps_with_fail (f : LStep → Bool) (l : List LStep)
    (h : ∃ st ∈ l, f st = true) : (runSteps f l).2 = false := by
  induction l with
  | nil =>
    rcases h with ⟨st, hst, _⟩
    exact absurd hst (List.not_mem_nil st)
  | cons a t ih =>
    cases hfa : f a
    · rcases h with ⟨st, hst, hf⟩
      rcases List.mem_cons.1 hst with rfl | hst'
      · rw [hfa] at hf
        exact absurd hf (by simp)
      · simp only [runSteps, hfa, Bool.false_eq_true, if_false]
        exact ih ⟨st, hst', hf⟩
    · simp [runSteps, hfa]

/-- Claim C8 (amended): the sign-out handler runs, in order, the purge of
the departing user's cache entries (when an identifier is available), the
auth-adjacent cache clear, the provider sign-out, the clearing of the
last-known-identifier marker, and the redirect; if every step succeeds the
trace is exactly that ordered list.  If any step throws, the handler falls
back to the nuclear `clearAll` and redirects to the login page — but it
does not retry the provider sign-out, which therefore completes exactly
when every step up to and including it succeeded. -/
theorem claim8_logout_fallback (uid : Option String) (failsAt : LStep → Bool) :
    ((∀ st ∈ bodySteps uid, failsAt st = false) →
      logoutTrace uid failsAt = bodySteps uid)
    ∧ ((∃ st ∈ bodySteps uid, failsAt st = true) →
      LStep.nuclearClearAll ∈ logoutTrace uid failsAt
      ∧ (logoutTrace uid failsAt).getLast? = some LStep.redirectLogin)
    ∧ (LStep.providerSignOut ∈ logoutTrace uid failsAt ↔
      (failsAt LStep.authCacheClear = false
        ∧ failsAt LStep.providerSignOut = false
        ∧ (uid.isSome = true → failsAt LStep.purgeUserCache = false))) := by
  refine ⟨?_, ?_, ?_⟩
  · intro h
    unfold logoutTrace
    rw [runSteps_all_ok failsAt _ h]
    simp
  · intro h
    have h2 := runSteps_with_fail failsAt _ h
    unfold logoutTrace
    dsimp only
    rw [h2]
    constructor
    · simp
    · simp [List.getLast?_append]
  · rcases uid with _ | u
    · cases h1 : failsAt LStep.authCacheClear <;>
        cases h2 : failsAt LStep.providerSignOut <;>
        cases h3 : failsAt LStep.clearLastUidMarker <;>
        cases h4 : failsAt LStep.redirectLogin <;>
        simp [bodySteps, logoutTrace, runSteps, h1, h2, h3, h4]
    · cases h0 : failsAt LStep.purgeUserCache <;>
        cases h1 : failsAt LStep.authCacheClear <;>
        cases h2 : failsAt LStep.providerSignOut <;>
        cases h3 : failsAt LStep.clearLastUidMarker <;>
        cases h4 : failsAt LStep.redirectLogin <;>
        simp [bodySteps, logoutTrace, runSteps, h0, h1, h2, h3, h4]

/-- Failure pattern in which the user-cache purge (step (a)) throws. -/
def failPurge : LStep → Bool := fun st => st == LStep.purgeUserCache

/-- Claim C8 as frozen is false: when step (a) (the user-cache purge)
throws, the handler does fall back to the nuclear clear and redirects, but
the provider sign-out is never performed — the catch block does not
complete it, contradicting "for every step that throws … still completes
the provider sign-out". -/
theorem claim8_counterexample :
    logoutTrace (some "u1") failPurge
      = [LStep.nuclearClearAll, LStep.redirectLogin]
    ∧ LStep.providerSignOut ∉ logoutTrace (some "u1") failPurge := by
  decide

/-- Witness for C8: with no failing step, logging out as `u1` performs
exactly the ordered body steps. -/
theorem claim8_witness :
    logoutTrace (some "u1") (fun _ => false) = bodySteps (some "u1") :=
  (claim8_logout_fallback (some "u1") (fun _ => false)).1 (fun _ _ => rfl)

-- ======== Claim C9: corruption detection ========

theorem ht_cache_key_not_manager (k : String) :
    strStarts (storKey k) managerNS = false := rfl

/-- Claim C9 (amended): `detectCacheCorruption` scans only keys under the
cache manager's `habit-tracker` namespace (not the Cache Engine's
`ht-cache` namespace).  It returns true iff some `habit-tracker`-prefixed
key exists that (with no user signed in) contains a colon, or (with a user
signed in) does not contain the user's identifier and matches
`habit-tracker:[a-zA-Z0-9]+:`.  Keys persisted by the Cache Engine
(`ht-cache:` namespace) never influence the result, so entries the Cache
Engine persisted for a different user are not flagged. -/
theorem claim9_corruption_detection (keys : List String)
    (cur : Option String) :
    (detectCacheCorruption keys cur = true ↔
      ∃ key ∈ keys, strStarts key managerNS = true ∧
        (match cur with
         | none => hasSubStr key ":" = true
         | some uid => hasSubStr key uid = false ∧ uidPatternTest key = true))
    ∧ ∀ k2, detectCacheCorruption (storKey k2 :: keys) cur
        = detectCacheCorruption keys cur := by
  constructor
  · cases cur <;>
      simp [detectCacheCorruption, List.any_eq_true, Bool.and_eq_true,
        Bool.not_eq_true']
  · intro k2
    unfold detectCacheCorruption
    rw [List.any_cons]
    rw [ht_cache_key_not_manager k2]
    simp

/-- Claim C9 as frozen is false: a key persisted by the Cache Engine for
user `userB` (under the `ht-cache:` namespace) is user-scoped and embeds
an identifier different from the signed-in `userA`, yet
`detectCacheCorruption` returns false — the scan only looks at
`habit-tracker`-prefixed keys, so Cache-Engine entries for a different
user are never flagged. -/
theorem claim9_counterexample :
    hasSubStr (storKey "todo:userB:2024-1") "userB" = true
    ∧ ("userA" : String) ≠ "userB"
    ∧ detectCacheCorruption [storKey "todo:userB:2024-1"] (some "userA")
        = false := by
  decide

end HabitTracker
